import Mathlib

/-!
Verification of the goalsgame/asset-pipeline change-detection and SDF core.

Shallow embedding of the repository's metadata store
(`src/asset_pipeline/core/datafiles/metadata.py`,
`src/asset_pipeline/core/datafiles/serialization.py`), of the SDF converter
(`src/processors/sdf/converter.py`) and of the incremental scan/process loop
(`src/asset_pipeline/processors/sdf/processor.py`), together with theorems
settling the frozen claims about them.

Modelling conventions:
* Python `Path` objects and strings are both path texts; the distinction
  between the two runtime types (which matters, because `str` has no
  `.exists()` attribute) is kept in `StrOrPath`.
* The filesystem is a map from path texts to file data.  A file written by
  `json.dump` is stored as its parsed JSON value (`FileData.json`); any other
  file is raw bytes (`FileData.bytes`).  Reading a raw-bytes file with
  `json.load` is modelled as a decode failure.
* Python exceptions are modelled by `Except Err`; functions that never raise
  return plain values.  Stateful code passes the filesystem explicitly; a
  function that performs no write does not return a filesystem.
* `hashlib.sha256` (an external library) is a parameter `hash` of every
  operation that hashes: the source streams the whole file in 4096-byte
  chunks, i.e. the digest is a function of the full byte content.
* `uuid.uuid4()` is modelled by passing the freshly generated identifier as
  an explicit argument to the operations that may create metadata.
-/

set_option autoImplicit false

namespace AssetPipeline

/-- Python runtime values that can appear in a metadata record or in a parsed
JSON document: `None`, `str`, `int`, `pathlib.Path`, `list`, `dict`. -/
inductive PyVal where
  | none : PyVal
  | str : String → PyVal
  | int : Int → PyVal
  | path : String → PyVal
  | list : List PyVal → PyVal
  | dict : List (String × PyVal) → PyVal

mutual

/-- Structural equality test on Python values (`==` semantics restricted to
the value forms above). -/
def PyVal.beq : PyVal → PyVal → Bool
  | .none, .none => true
  | .str a, .str b => a == b
  | .int a, .int b => a == b
  | .path a, .path b => a == b
  | .list a, .list b => PyVal.beqList a b
  | .dict a, .dict b => PyVal.beqDict a b
  | _, _ => false

def PyVal.beqList : List PyVal → List PyVal → Bool
  | [], [] => true
  | x :: xs, y :: ys => PyVal.beq x y && PyVal.beqList xs ys
  | _, _ => false

def PyVal.beqDict : List (String × PyVal) → List (String × PyVal) → Bool
  | [], [] => true
  | (k, v) :: xs, (k2, v2) :: ys => k == k2 && PyVal.beq v v2 && PyVal.beqDict xs ys
  | _, _ => false

end

mutual

def PyVal.eq_of_beq : {a b : PyVal} → PyVal.beq a b = true → a = b
  | .none, .none, _ => rfl
  | .str _, .str _, h => congrArg PyVal.str (beq_iff_eq.mp h)
  | .int _, .int _, h => congrArg PyVal.int (beq_iff_eq.mp h)
  | .path _, .path _, h => congrArg PyVal.path (beq_iff_eq.mp h)
  | .list _, .list _, h => congrArg PyVal.list (PyVal.eqList_of_beq h)
  | .dict _, .dict _, h => congrArg PyVal.dict (PyVal.eqDict_of_beq h)
  | .none, .str _, h => nomatch h
  | .none, .int _, h => nomatch h
  | .none, .path _, h => nomatch h
  | .none, .list _, h => nomatch h
  | .none, .dict _, h => nomatch h
  | .str _, .none, h => nomatch h
  | .str _, .int _, h => nomatch h
  | .str _, .path _, h => nomatch h
  | .str _, .list _, h => nomatch h
  | .str _, .dict _, h => nomatch h
  | .int _, .none, h => nomatch h
  | .int _, .str _, h => nomatch h
  | .int _, .path _, h => nomatch h
  | .int _, .list _, h => nomatch h
  | .int _, .dict _, h => nomatch h
  | .path _, .none, h => nomatch h
  | .path _, .str _, h => nomatch h
  | .path _, .int _, h => nomatch h
  | .path _, .list _, h => nomatch h
  | .path _, .dict _, h => nomatch h
  | .list _, .none, h => nomatch h
  | .list _, .str _, h => nomatch h
  | .list _, .int _, h => nomatch h
  | .list _, .path _, h => nomatch h
  | .list _, .dict _, h => nomatch h
  | .dict _, .none, h => nomatch h
  | .dict _, .str _, h => nomatch h
  | .dict _, .int _, h => nomatch h
  | .dict _, .path _, h => nomatch h
  | .dict _, .list _, h => nomatch h

def PyVal.eqList_of_beq : {a b : List PyVal} → PyVal.beqList a b = true → a = b
  | [], [], _ => rfl
  | x :: xs, y :: ys, h =>
      have hp : PyVal.beq x y = true ∧ PyVal.beqList xs ys = true := by
        simpa [PyVal.beqList] using h
      match PyVal.eq_of_beq hp.1, PyVal.eqList_of_beq hp.2 with
      | rfl, rfl => rfl
  | [], _ :: _, h => nomatch h
  | _ :: _, [], h => nomatch h

def PyVal.eqDict_of_beq :
    {a b : List (String × PyVal)} → PyVal.beqDict a b = true → a = b
  | [], [], _ => rfl
  | (k, v) :: xs, (k2, v2) :: ys, h =>
      have hp : k = k2 ∧ PyVal.beq v v2 = true ∧ PyVal.beqDict xs ys = true := by
        simpa [PyVal.beqDict, and_assoc] using h
      match hp.1, PyVal.eq_of_beq hp.2.1, PyVal.eqDict_of_beq hp.2.2 with
      | rfl, rfl, rfl => rfl
  | [], _ :: _, h => nomatch h
  | _ :: _, [], h => nomatch h

end

mutual

def PyVal.beq_refl : (a : PyVal) → PyVal.beq a a = true
  | .none => rfl
  | .str s => by simp [PyVal.beq]
  | .int n => by simp [PyVal.beq]
  | .path s => by simp [PyVal.beq]
  | .list l => PyVal.beqList_refl l
  | .dict l => PyVal.beqDict_refl l

def PyVal.beqList_refl : (l : List PyVal) → PyVal.beqList l l = true
  | [] => rfl
  | x :: xs => by
      have h1 := PyVal.beq_refl x
      have h2 := PyVal.beqList_refl xs
      simp [PyVal.beqList, h1, h2]

def PyVal.beqDict_refl : (l : List (String × PyVal)) → PyVal.beqDict l l = true
  | [] => rfl
  | (k, v) :: xs => by
      have h1 := PyVal.beq_refl v
      have h2 := PyVal.beqDict_refl xs
      simp [PyVal.beqDict, h1, h2]

end

instance : DecidableEq PyVal := fun a b =>
  if h : PyVal.beq a b = true then .isTrue (PyVal.eq_of_beq h)
  else .isFalse (fun he => h (he ▸ PyVal.beq_refl a))

instance {ε α : Type} [DecidableEq ε] [DecidableEq α] : DecidableEq (Except ε α)
  | .ok x, .ok y =>
      if h : x = y then .isTrue (by rw [h]) else .isFalse (fun he => h (by cases he; rfl))
  | .error x, .error y =>
      if h : x = y then .isTrue (by rw [h]) else .isFalse (fun he => h (by cases he; rfl))
  | .ok _, .error _ => .isFalse (fun he => nomatch he)
  | .error _, .ok _ => .isFalse (fun he => nomatch he)

/-- Python exceptions raised by the embedded code. -/
inductive Err where
  /-- `FileNotFoundError` -/
  | fileNotFound : Err
  /-- `json.JSONDecodeError` (malformed JSON text) -/
  | jsonDecode : Err
  /-- `AttributeError` (e.g. `.exists()` on a `str`) -/
  | attrError : Err
  /-- `TypeError` (e.g. `Path(None)`) -/
  | typeError : Err
  /-- `ValueError` (e.g. numpy reshape size mismatch, `np.min` of empty) -/
  | valueError : Err
  /-- the "no signal" failure result the spec's multichannel contract demands
  (used only by the spec-modelled definition, not by the code model) -/
  | noSignal : Err
deriving DecidableEq

/-- Content of one file: raw bytes, or the JSON document a `json.dump` wrote. -/
inductive FileData where
  | bytes : List Nat → FileData
  | json : PyVal → FileData
deriving DecidableEq

/-- The filesystem: a partial map from path text to file content. -/
structure FS where
  files : String → Option FileData

/-- Overwrite (or create) one file. -/
def FS.write (fs : FS) (p : String) (d : FileData) : FS :=
  ⟨fun q => if q = p then some d else fs.files q⟩

/-- A value that is either a Python `str` or a `pathlib.Path`; the source
annotates its path arguments with `t.Union[str, Path]`. -/
inductive StrOrPath where
  | str : String → StrOrPath
  | path : String → StrOrPath
deriving DecidableEq

/-- `Path(x)` / `str(Path(x))`: the path text of either variant. -/
def StrOrPath.toPath : StrOrPath → String
  | .str s => s
  | .path s => s

mutual

/-- A crude byte rendering of a JSON document, standing for the text
`json.dump` wrote; only used when a JSON file is opened in binary mode for
hashing, which no claim exercises. -/
def PyVal.enc : PyVal → List Nat
  | .none => [0]
  | .str s => 1 :: (s.toList.map Char.toNat ++ [254])
  | .int n => 2 :: (n.toNat :: n.natAbs :: [254])
  | .path s => 3 :: (s.toList.map Char.toNat ++ [254])
  | .list l => 4 :: (PyVal.encList l ++ [254])
  | .dict l => 5 :: (PyVal.encDict l ++ [254])

def PyVal.encList : List PyVal → List Nat
  | [] => []
  | v :: vs => PyVal.enc v ++ PyVal.encList vs

def PyVal.encDict : List (String × PyVal) → List Nat
  | [] => []
  | (k, v) :: vs => k.toList.map Char.toNat ++ PyVal.enc v ++ PyVal.encDict vs

end

/-- The bytes `open(path, "rb")` reads from a file. -/
def FileData.toBytes : FileData → List Nat
  | .bytes b => b
  | .json j => j.enc

/-! ## `asset_pipeline/core/datafiles/metadata.py` -/

def METADATA_EXTENSION : String := ".gsam"

/-- `AssetMetadata` — frozen dataclass `uuid / checksum / exported_files /
version`.  Field values are Python runtime values: the dataclass performs no
runtime type checking, so deserialization can populate any field with any
value (including `None`). -/
structure AssetMetadata where
  uuid : PyVal
  checksum : PyVal
  exported_files : PyVal
  version : PyVal
deriving DecidableEq

/-- `AssetStatus` enum. -/
inductive AssetStatus where
  | NEW : AssetStatus
  | MODIFIED : AssetStatus
  | UNCHANGED : AssetStatus
deriving DecidableEq

/-- `get_metadata_path`: append the fixed metadata extension to the asset's
full path text (`Path(f"{asset_path}{METADATA_EXTENSION}")`). -/
def get_metadata_path (asset_path : StrOrPath) : String :=
  asset_path.toPath ++ METADATA_EXTENSION

/-- `calculate_checksum`: SHA-256 of the file's full byte content (the source
streams 4096-byte chunks into one digest).  Raises `FileNotFoundError` when
the file does not exist. -/
def calculate_checksum (hash : List Nat → String) (fs : FS) (file_path : StrOrPath) :
    Except Err String :=
  match fs.files file_path.toPath with
  | some fd => .ok (hash fd.toBytes)
  | Option.none => .error .fileNotFound

/-- `create_metadata`: fresh record with a new uuid, the current checksum, the
default `exported_files=[]` and `version=1`. -/
def create_metadata (hash : List Nat → String) (newUuid : String) (fs : FS)
    (asset_path : StrOrPath) : Except Err AssetMetadata := do
  let c ← calculate_checksum hash fs asset_path
  .ok ⟨.str newUuid, .str c, .list [], .int 1⟩

/-! ### `asset_pipeline/core/datafiles/serialization.py`, specialised to
`AssetMetadata` (the generic code walks `dc.fields(cls)`; the field list of
`AssetMetadata` is static, so the specialisation is the unrolled loop). -/

mutual

/-- `_convert_for_serialization`: `Path` becomes `str`, lists and dicts are
converted recursively, everything else is returned unchanged. -/
def convert_for_serialization : PyVal → PyVal
  | .path s => .str s
  | .list l => .list (convert_list_for_serialization l)
  | .dict l => .dict (convert_dict_for_serialization l)
  | v => v

def convert_list_for_serialization : List PyVal → List PyVal
  | [] => []
  | v :: vs => convert_for_serialization v :: convert_list_for_serialization vs

def convert_dict_for_serialization : List (String × PyVal) → List (String × PyVal)
  | [] => []
  | (k, v) :: vs => (k, convert_for_serialization v) :: convert_dict_for_serialization vs

end

/-- `serialize_dataclass` on an `AssetMetadata`: `dc.asdict` (fields in
declaration order) followed by `_convert_for_serialization` of each value. -/
def serialize_metadata (m : AssetMetadata) : PyVal :=
  .dict [("uuid", convert_for_serialization m.uuid),
         ("checksum", convert_for_serialization m.checksum),
         ("exported_files", convert_for_serialization m.exported_files),
         ("version", convert_for_serialization m.version)]

/-- `save_json`: `json.dump` to the file, fully replacing previous content. -/
def save_json (fs : FS) (data : PyVal) (file_path : StrOrPath) : FS :=
  fs.write file_path.toPath (.json data)

/-- `load_json`: `json.load`; `FileNotFoundError` when the file is missing,
decode error when the content is not JSON text. -/
def load_json (fs : FS) (file_path : StrOrPath) : Except Err PyVal :=
  match fs.files file_path.toPath with
  | Option.none => .error .fileNotFound
  | some (.json j) => .ok j
  | some (.bytes _) => .error .jsonDecode

/-- `Path(item)`: succeeds on `str` and `Path` arguments, raises `TypeError`
on anything else (`None`, numbers, lists, dicts). -/
def pathOf : PyVal → Except Err PyVal
  | .str s => .ok (.path s)
  | .path s => .ok (.path s)
  | _ => .error .typeError

/-- `_convert_to_field(t.List[Path], value)`: `None` passes through; a list is
converted elementwise with `Path(item)`; a string is iterated character by
character (Python strings are iterable); a dict is iterated over its keys;
an int is not iterable (`TypeError`). -/
def convert_exported_files : PyVal → Except Err PyVal
  | .none => .ok .none
  | .list l => (l.mapM pathOf).map .list
  | .str s => .ok (.list (s.toList.map (fun ch => .path (String.singleton ch))))
  | .dict l => .ok (.list (l.map (fun kv => .path kv.1)))
  | _ => .error .typeError

/-- `deserialize_dataclass(AssetMetadata, data)`: `data.get(field.name)` for
each declared field (missing key gives `None`), `_convert_to_field` on the
value, then `cls(**field_values)` — which performs **no** validation, so
missing required fields silently become `None`.  A non-dict document has no
`.get` attribute (`AttributeError`). -/
def deserialize_metadata (data : PyVal) : Except Err AssetMetadata :=
  match data with
  | .dict kvs => do
      let uuidVal := (kvs.lookup "uuid").getD .none
      let checksumVal := (kvs.lookup "checksum").getD .none
      let efVal ← convert_exported_files ((kvs.lookup "exported_files").getD .none)
      let versionVal := (kvs.lookup "version").getD .none
      .ok ⟨uuidVal, checksumVal, efVal, versionVal⟩
  | _ => .error .attrError

/-- `save_metadata`: serialize and write the record. -/
def save_metadata (fs : FS) (m : AssetMetadata) (metadata_path : StrOrPath) : FS :=
  save_json fs (serialize_metadata m) metadata_path

/-- `load_metadata`: `load_json` then `deserialize_dataclass`. -/
def load_metadata (fs : FS) (metadata_path : StrOrPath) : Except Err AssetMetadata := do
  let j ← load_json fs metadata_path
  deserialize_metadata j

/-- `retrieve_metadata`: note the source calls `asset_path.exists()` **before**
converting to `Path`, so a `str` argument raises `AttributeError`
unconditionally; a missing `Path` raises `FileNotFoundError`; otherwise the
side-car record is loaded if present, else created (fresh uuid) and saved. -/
def retrieve_metadata (hash : List Nat → String) (newUuid : String) (fs : FS)
    (asset_path : StrOrPath) : Except Err (AssetMetadata × FS) :=
  match asset_path with
  | .str _ => .error .attrError
  | .path p =>
    if (fs.files p).isSome then
      let metadata_path := get_metadata_path (.path p)
      if (fs.files metadata_path).isSome then do
        let m ← load_metadata fs (.path metadata_path)
        .ok (m, fs)
      else do
        let m ← create_metadata hash newUuid fs (.path p)
        .ok (m, save_metadata fs m (.path metadata_path))
    else .error .fileNotFound

/-- `refresh_metadata`: retrieve (or create), then `dc.replace` with the given
`exported_files` override (if any) and a freshly recomputed checksum — the
uuid and version fields of the retrieved record are never touched — then save. -/
def refresh_metadata (hash : List Nat → String) (newUuid : String) (fs : FS)
    (asset_path : StrOrPath) (changes : Option PyVal) :
    Except Err (AssetMetadata × FS) := do
  let metadata_path := get_metadata_path asset_path
  let (m, fs1) ← retrieve_metadata hash newUuid fs asset_path
  let c ← calculate_checksum hash fs1 asset_path
  let updated : AssetMetadata :=
    { m with exported_files := changes.getD m.exported_files, checksum := .str c }
  .ok (updated, save_metadata fs1 updated (.path metadata_path))

/-- `get_asset_status`: converts the argument to `Path` first, derives the
side-car path, returns `NEW` when no side-car exists, otherwise loads the
record and compares its stored checksum with the freshly computed one.  The
function performs no write (it returns no filesystem). -/
def get_asset_status (hash : List Nat → String) (fs : FS) (asset_path : StrOrPath) :
    Except Err AssetStatus :=
  let p : String := asset_path.toPath
  let metadata_path := get_metadata_path (.path p)
  if (fs.files metadata_path).isSome then do
    let m ← load_metadata fs (.path metadata_path)
    let current ← calculate_checksum hash fs (.path p)
    if PyVal.str current ≠ m.checksum then .ok .MODIFIED
    else .ok .UNCHANGED
  else .ok .NEW

/-! ## `processors/sdf/converter.py`

2-D and 3-D numpy arrays are embedded as dimensions plus a total value
function that is zero outside the stated bounds (every array constructor
below guards its values accordingly).  Sample values are `Nat` (uint8 without
overflow: every value written is in `[0, 255]`); the float64 distance
arithmetic is idealised as exact rational arithmetic, with the irrational
Euclidean distances delivered by a square-root parameter `sqrtFn` shared by
every pipeline being compared (scipy's `distance_transform_edt` is an
external collaborator; both the code model and the spec reference consult the
same model of it, so no theorem depends on its numeric internals). -/

/-- A 2-D uint8 sample grid (numpy `(H, W)` array of `uint8`). -/
structure A2N where
  H : ℕ
  W : ℕ
  d : ℕ → ℕ → ℕ

/-- A 2-D rational grid (numpy `(H, W)` array of `float64`, idealised). -/
structure A2Q where
  H : ℕ
  W : ℕ
  d : ℕ → ℕ → ℚ

/-- A 3-D uint8 image (numpy `(H, W, C)` array of `uint8`). -/
structure A3N where
  H : ℕ
  W : ℕ
  C : ℕ
  d : ℕ → ℕ → ℕ → ℕ

/-- `np.where(channel >= threshold, 255, 0)`. -/
def binarize (g : A2N) (threshold : ℕ) : A2N :=
  ⟨g.H, g.W, fun r c =>
    if r < g.H ∧ c < g.W then (if threshold ≤ g.d r c then 255 else 0) else 0⟩

/-- `255 - binary_mask` (the mask only holds 0 or 255, so no underflow). -/
def invert255 (g : A2N) : A2N :=
  ⟨g.H, g.W, fun r c => if r < g.H ∧ c < g.W then 255 - g.d r c else 0⟩

/-- All in-bounds cells of a mask holding value `0` (the background cells the
Euclidean distance transform measures distance to). -/
def zeroCells (m : A2N) : List (ℕ × ℕ) :=
  ((List.range m.H).map (fun r =>
    (List.range m.W).filterMap (fun c =>
      if m.d r c = 0 then some (r, c) else Option.none))).flatten

/-- Squared Euclidean distance between two cells. -/
def sqDistN (a b : ℕ × ℕ) : ℕ :=
  (((a.1 : ℤ) - b.1) ^ 2 + ((a.2 : ℤ) - b.2) ^ 2).toNat

/-- `np.min`-style fold (numpy reduces with pairwise `min`; raises on an
empty array, hence the `Option`). -/
def reduceMin : List ℕ → Option ℕ
  | [] => Option.none
  | x :: xs => some (xs.foldl min x)

/-- `np.max`-style fold. -/
def reduceMax : List ℕ → Option ℕ
  | [] => Option.none
  | x :: xs => some (xs.foldl max x)

/-- Squared distance from cell `(r, c)` to the nearest zero cell of `m`,
when one exists. -/
def minSqToZero (m : A2N) (r c : ℕ) : Option ℕ :=
  reduceMin ((zeroCells m).map (sqDistN (r, c)))

/-- `scipy.ndimage.distance_transform_edt`, modelled from its documented
semantics (an external collaborator of the converter): each nonzero cell gets
its exact Euclidean distance to the nearest zero cell, zero cells get 0.  The
square root is delivered by `sqrtFn` (see the section comment); a mask with
no zero cell at all falls back to 0, a case no compared pipeline or concrete
input exercises differently (both sides share this model). -/
def edt (sqrtFn : ℕ → ℚ) (m : A2N) : A2Q :=
  ⟨m.H, m.W, fun r c =>
    if r < m.H ∧ c < m.W then
      if m.d r c = 0 then 0
      else
        match minSqToZero m r c with
        | some s => sqrtFn s
        | Option.none => 0
    else 0⟩

/-- `np.maximum`, elementwise. -/
def qmax (a b : ℚ) : ℚ := if a ≤ b then b else a

/-- `np.minimum`, elementwise. -/
def qmin (a b : ℚ) : ℚ := if a ≤ b then a else b

/-- `np.clip(x, lo, hi) = minimum(maximum(x, lo), hi)`. -/
def clip (lo hi x : ℚ) : ℚ := qmin (qmax x lo) hi

/-- `.astype(np.uint8)` on a float64 that the pipeline has already placed in
`[0, 255]`: truncation toward zero, which on nonnegative values is the
floor. -/
def toU8 (x : ℚ) : ℕ := x.floor.toNat

/-- `compute_sdf` (`processors/sdf/converter.py`): binarize, dual distance
transform, signed combine and clip, then downsample via
`sdf[:height, :width].reshape(new_height, f, new_width, f).mean(axis=(1, 3))`
and normalize to `[0, 255]`.  The slice `[:height, :width]` uses the full
dimensions (it trims nothing), so the reshape demands
`height * width = new_height * f * (new_width * f)` and raises `ValueError`
otherwise; the reshape reads the full-resolution field in row-major order
with row stride `new_width * f`. -/
def compute_sdf (sqrtFn : ℕ → ℚ) (channel : A2N) (max_relative_distance : ℚ)
    (downsample_factor threshold : ℕ) : Except Err A2N :=
  let binary_mask := binarize channel threshold
  let height := binary_mask.H
  let width := binary_mask.W
  let new_height := height / downsample_factor
  let new_width := width / downsample_factor
  let max_distance : ℚ := max_relative_distance * ((max height width : ℕ) : ℚ)
  let interior_distance := edt sqrtFn binary_mask
  let exterior_distance := edt sqrtFn (invert255 binary_mask)
  let sdf : A2Q := ⟨height, width, fun r c =>
    if r < height ∧ c < width then
      clip (-max_distance) max_distance
        (interior_distance.d r c - exterior_distance.d r c)
    else 0⟩
  if height * width = new_height * downsample_factor * (new_width * downsample_factor) then
    let flat : ℕ → ℚ := fun k => sdf.d (k / width) (k % width)
    let downsampled_sdf : A2Q := ⟨new_height, new_width, fun i j =>
      if i < new_height ∧ j < new_width then
        let blockSum : ℚ :=
          ((List.range downsample_factor).map (fun a =>
            ((List.range downsample_factor).map (fun b =>
              flat ((i * downsample_factor + a) * (new_width * downsample_factor)
                + (j * downsample_factor + b)))).sum)).sum
        blockSum / ((downsample_factor : ℚ) * (downsample_factor : ℚ))
      else 0⟩
    .ok ⟨new_height, new_width, fun i j =>
      if i < new_height ∧ j < new_width then
        toU8 (255 * (downsampled_sdf.d i j + max_distance) / (2 * max_distance))
      else 0⟩
  else .error .valueError

/-- Modelled from the spec (§4.2 `compute_distance_field`): Step 1 binarize
with threshold; Step 2 dual exact Euclidean distance transform (the same
collaborator model `edt`); Step 3 signed value `interior − exterior` clipped
to `[−max_distance, max_distance]` with
`max_distance = max_relative_distance × max(H, W)`; Step 4 mean over
non-overlapping `f × f` blocks addressed directly in two dimensions; Step 5
linear remap of `[−max_distance, max_distance]` to `[0, 255]`, quantized to
8 bits; output shape `(H/f, W/f)`. -/
def spec_distance_field (sqrtFn : ℕ → ℚ) (buffer : A2N) (max_relative_distance : ℚ)
    (downsample_factor threshold : ℕ) : A2N :=
  let fg : A2N := ⟨buffer.H, buffer.W, fun r c =>
    if r < buffer.H ∧ c < buffer.W then (if threshold ≤ buffer.d r c then 255 else 0)
    else 0⟩
  let bg : A2N := ⟨buffer.H, buffer.W, fun r c =>
    if r < buffer.H ∧ c < buffer.W then (if threshold ≤ buffer.d r c then 0 else 255)
    else 0⟩
  let interior := edt sqrtFn fg
  let exterior := edt sqrtFn bg
  let md : ℚ := max_relative_distance * ((max buffer.H buffer.W : ℕ) : ℚ)
  let signed : A2Q := ⟨buffer.H, buffer.W, fun r c =>
    if r < buffer.H ∧ c < buffer.W then
      clip (-md) md (interior.d r c - exterior.d r c)
    else 0⟩
  let nh := buffer.H / downsample_factor
  let nw := buffer.W / downsample_factor
  ⟨nh, nw, fun i j =>
    if i < nh ∧ j < nw then
      let blockSum : ℚ :=
        ((List.range downsample_factor).map (fun a =>
          ((List.range downsample_factor).map (fun b =>
            signed.d (i * downsample_factor + a) (j * downsample_factor + b))).sum)).sum
      let blockMean : ℚ :=
        blockSum / ((downsample_factor : ℚ) * (downsample_factor : ℚ))
      toU8 (255 * (blockMean + md) / (2 * md))
    else 0⟩

/-- `image[:, :, channel_idx]`. -/
def channelOf (img : A3N) (k : ℕ) : A2N :=
  ⟨img.H, img.W, fun r c => if r < img.H ∧ c < img.W then img.d r c k else 0⟩

/-- All samples of one channel, row-major. -/
def channel_samples (img : A3N) (k : ℕ) : List ℕ :=
  ((List.range img.H).map (fun r =>
    (List.range img.W).map (fun c => img.d r c k))).flatten

/-- `analyze_image_channels`: a channel "has content" unless its minimum and
maximum sample values coincide.  `np.min`/`np.max` raise `ValueError` on an
empty array, so a zero-pixel image with at least one channel fails. -/
def analyze_image_channels (img : A3N) : Except Err (List Bool) :=
  if img.C ≠ 0 ∧ img.H * img.W = 0 then .error .valueError
  else .ok ((List.range img.C).map (fun k =>
    !(reduceMin (channel_samples img k) == reduceMax (channel_samples img k))))

/-- The `for idx, has_content in enumerate(channel_content)` loop of
`compute_multichannel_sdf`: compute the single-channel SDF of every
content-bearing channel, in channel order, propagating the first failure. -/
def content_sdfs (sqrtFn : ℕ → ℚ) (img : A3N) (mrd : ℚ) (f thr : ℕ) :
    List Bool → ℕ → Except Err (List A2N)
  | [], _ => .ok []
  | hc :: rest, idx =>
    if hc then do
      let s ← compute_sdf sqrtFn (channelOf img idx) mrd f thr
      let tail ← content_sdfs sqrtFn img mrd f thr rest (idx + 1)
      .ok (s :: tail)
    else content_sdfs sqrtFn img mrd f thr rest (idx + 1)

/-- Result of the multichannel conversion: a grayscale `(nh, nw)` array or a
packed `(nh, nw, C)` array (the source returns plain numpy arrays; the
caller distinguishes them by dimensionality). -/
inductive SdfOut where
  | gray : A2N → SdfOut
  | multi : A3N → SdfOut

/-- `compute_multichannel_sdf` (`processors/sdf/converter.py`): analyze
channel content, compute the SDF of each content-bearing channel, then
return `np.zeros((nh, nw))` when none has content, the single SDF when
exactly one has, and otherwise a `max(len, 3)`-channel output whose channel
`idx` holds the `idx`-th computed SDF (`output[..., idx] = channel_sdf` —
consecutive positions in content order; the function takes no
`channel_mapping` parameter). -/
def compute_multichannel_sdf (sqrtFn : ℕ → ℚ) (img : A3N) (max_rel_distance : ℚ)
    (downsample_factor threshold : ℕ) : Except Err SdfOut := do
  let new_height := img.H / downsample_factor
  let new_width := img.W / downsample_factor
  let channel_content ← analyze_image_channels img
  let channels_sdf ← content_sdfs sqrtFn img max_rel_distance downsample_factor
    threshold channel_content 0
  match channels_sdf with
  | [] => .ok (.gray ⟨new_height, new_width, fun _ _ => 0⟩)
  | [s] => .ok (.gray s)
  | _ =>
    let channels_number := max channels_sdf.length 3
    .ok (.multi ⟨new_height, new_width, channels_number, fun r c i =>
      if r < new_height ∧ c < new_width ∧ i < channels_number then
        ((channels_sdf[i]?).map (fun s => s.d r c)).getD 0
      else 0⟩)

/-- Indices of the `true` entries of a content list, counting from `start`. -/
def contentIdxs : List Bool → ℕ → List ℕ
  | [], _ => []
  | b :: rest, idx =>
    if b then idx :: contentIdxs rest (idx + 1) else contentIdxs rest (idx + 1)

/-- Modelled from the spec (§4.2 `compute_multichannel_sdf` contract): zero
content channels give the "no signal" failure result; one content channel
gives its grayscale SDF; two or more give an output with
`max(#content, 3)` channels in which each content-bearing source channel's
SDF is written at position `channel_mapping[source_channel_index]` and
positions no source maps to stay zero. -/
def spec_multichannel_pack (sqrtFn : ℕ → ℚ) (img : A3N) (mrd : ℚ) (f thr : ℕ)
    (channel_mapping : List ℕ) : Except Err SdfOut := do
  let nh := img.H / f
  let nw := img.W / f
  let content ← analyze_image_channels img
  match contentIdxs content 0 with
  | [] => .error .noSignal
  | [k] => do
      let s ← compute_sdf sqrtFn (channelOf img k) mrd f thr
      .ok (.gray s)
  | srcs => do
      let sdfs ← srcs.mapM (fun k => compute_sdf sqrtFn (channelOf img k) mrd f thr)
      let cn := max srcs.length 3
      .ok (.multi ⟨nh, nw, cn, fun r c i =>
        if r < nh ∧ c < nw ∧ i < cn then
          (match (srcs.zip sdfs).find?
              (fun kv => decide (channel_mapping.getD kv.1 0 = i)) with
           | some kv => kv.2.d r c
           | Option.none => 0)
        else 0⟩)

/-- Channel value of a multichannel result, for stating concrete facts about
one output position without binding the whole array. -/
def outAt : Except Err SdfOut → ℕ → ℕ → ℕ → Option ℕ
  | .ok (.multi a), r, c, i => some (a.d r c i)
  | _, _, _, _ => Option.none

/-- An executable stand-in for the exact square root used by concrete
counterexample evaluations; on the perfect squares those evaluations consult
(only `1` here) it agrees exactly with the real square root, and with the
float64 value scipy returns. -/
def natSqrtQ (n : ℕ) : ℚ := (Nat.sqrt n : ℚ)

/-! ## `asset_pipeline/processors/sdf/processor.py` — the scan/process loop -/

/-- The body of the pending-file loop of `process_sdf` (lines 78–87):
`exported_path = svg_to_sdf(...)` followed **unconditionally** by
`refresh_metadata(svg_path, exported_files=[exported_path])`.  `svg_to_sdf`
is an opaque transform (it rasterises with Qt and writes the output file):
it returns the produced output path, or `None` on its non-raising failure
mode (`numpy_to_image` returning `None`), in which case the Python list
`[exported_path]` is `[None]`. -/
def process_pending_asset (hash : List Nat → String) (newUuid : String)
    (transform : FS → String → Option String × FS) (fs : FS) (svg_path : String) :
    Except Err FS := do
  let res := transform fs svg_path
  let exported_path := res.1
  let (_, fs1) ← refresh_metadata hash newUuid res.2 (.path svg_path)
    (some (.list [match exported_path with
                  | some p => PyVal.path p
                  | Option.none => PyVal.none]))
  .ok fs1

/-- The pending-file loop of `process_sdf`: process each pending asset in
order (the source has no exception handling around the body, so a raising
body aborts the batch). -/
def process_pending_files (hash : List Nat → String) (newUuidFor : String → String)
    (transform : FS → String → Option String × FS) :
    FS → List String → Except Err FS
  | fs, [] => .ok fs
  | fs, f :: rest => do
      let fs1 ← process_pending_asset hash (newUuidFor f) transform fs f
      process_pending_files hash newUuidFor transform fs1 rest

/-- The classification loop of `process_sdf` (lines 64–71): the pending set
is the sub-list of scanned files whose status is `NEW` or `MODIFIED`, in
scan order. -/
def classify_pending (hash : List Nat → String) (fs : FS) :
    List String → Except Err (List String)
  | [] => .ok []
  | f :: rest => do
      let s ← get_asset_status hash fs (.path f)
      let tail ← classify_pending hash fs rest
      if s = .NEW ∨ s = .MODIFIED then .ok (f :: tail) else .ok tail

/-- A sequence of successive `refresh_metadata` calls on one asset, each with
its own fresh-uuid supply and `exported_files` override. -/
def refresh_seq (hash : List Nat → String) :
    List (String × Option PyVal) → FS → StrOrPath → Except Err FS
  | [], fs, _ => .ok fs
  | (u, ch) :: rest, fs, ap => do
      let r ← refresh_metadata hash u fs ap ch
      refresh_seq hash rest r.2 ap

/-- The `uuid` value stored in the on-disk side-car record of asset `p`. -/
def stored_uuid (fs : FS) (p : String) : Option PyVal :=
  match fs.files (p ++ METADATA_EXTENSION) with
  | some (.json (.dict kvs)) => kvs.lookup "uuid"
  | _ => Option.none

/-- Whether an `exported_files` value survives a serialize/deserialize round
trip (true for lists of paths and strings; false e.g. for a list containing
`None`, since `Path(None)` raises `TypeError`). -/
def ef_roundtrips (v : PyVal) : Bool :=
  (convert_exported_files (convert_for_serialization v)).toOption.isSome

/-! ## Concrete fixtures for counterexamples and witnesses -/

/-- A stand-in digest function for concrete evaluations (the claims depend
only on the digest being a function of the byte content, not on SHA-256
internals). -/
def hash0 (bs : List Nat) : String := toString bs.length

/-- One asset file, no metadata. -/
def fsA : FS := ⟨fun p => if p = "a.svg" then some (.bytes [1, 2]) else Option.none⟩

/-- Two asset files, no metadata. -/
def fsB : FS :=
  ⟨fun p =>
    if p = "a.svg" then some (.bytes [1])
    else if p = "b.svg" then some (.bytes [2])
    else Option.none⟩

/-- An existing, well-formed side-car record for `c.svg` whose stored
checksum matches the current content. -/
def fsC : FS :=
  ⟨fun p =>
    if p = "c.svg" then some (.bytes [5])
    else if p = "c.svg.gsam" then
      some (.json (.dict [("uuid", .str "u1"), ("checksum", .str (hash0 [5])),
                          ("exported_files", .list []), ("version", .int 1)]))
    else Option.none⟩

/-- A metadata file holding the well-formed JSON document `{}` (missing every
required field) and a metadata file holding non-JSON bytes. -/
def fsD : FS :=
  ⟨fun p =>
    if p = "b.svg" then some (.bytes [9])
    else if p = "b.svg.gsam" then some (.json (.dict []))
    else if p = "mal.svg" then some (.bytes [7])
    else if p = "mal.svg.gsam" then some (.bytes [123])
    else Option.none⟩

/-- Status of the asset right after a refresh, when the refresh succeeded. -/
def after_refresh_status (hash : List Nat → String) (u : String) (fs : FS)
    (p : String) (ch : Option PyVal) : Option (Except Err AssetStatus) :=
  (refresh_metadata hash u fs (.path p) ch).toOption.map
    (fun r => get_asset_status hash r.2 (.path p))

/-- Contents of one file in the filesystem a loop run produced, when the run
succeeded. -/
def run_result (r : Except Err FS) (p : String) : Option (Option FileData) :=
  r.toOption.map (fun fs => fs.files p)

/-- Status of one asset in the filesystem a loop run produced. -/
def run_status (hash : List Nat → String) (r : Except Err FS) (p : String) :
    Option (Except Err AssetStatus) :=
  r.toOption.map (fun fs => get_asset_status hash fs (.path p))

/-- A transform that fails (returns `None`) on `a.svg` and succeeds on
anything else, writing the produced output file. -/
def transform_mixed : FS → String → Option String × FS :=
  fun fs p =>
    if p = "a.svg" then (Option.none, fs)
    else (some ("T_" ++ p ++ ".png"), fs.write ("T_" ++ p ++ ".png") (.bytes [0]))

/-- Fresh-uuid supply for loop fixtures. -/
def uuidFor (p : String) : String := "uuid-" ++ p

/-- All-uniform 2×2 4-channel image: channel `k` holds value `k`
everywhere. -/
def imgU : A3N := ⟨2, 2, 4, fun _ _ k => k⟩

/-- 1×2 4-channel image: channel 0 holds `[255, 0]`, channel 2 holds
`[0, 255]`, channels 1 and 3 are uniformly 0. -/
def img1 : A3N :=
  ⟨1, 2, 4, fun _ c k =>
    if k = 0 then (if c = 0 then 255 else 0)
    else if k = 2 then (if c = 1 then 255 else 0)
    else 0⟩

/-- A 5×5 grid (dimensions not divisible by the default downsample factor
4). -/
def g5 : A2N := ⟨5, 5, fun _ _ => 0⟩

/-- A 4×4 grid with both dimensions divisible by 2. -/
def g4 : A2N := ⟨4, 4, fun r c => 16 * r + c⟩

/-- Unwrap a successful result, with a default for the error case (used only
to state list-level facts about results already known to be successful). -/
def exOk {α : Type} (dflt : α) : Except Err α → α
  | .ok a => a
  | .error _ => dflt

/-- The default array fed to `exOk` in statements about `compute_sdf`. -/
def a2n0 : A2N := ⟨0, 0, fun _ _ => 0⟩

/-! ## Helper lemmas -/

theorem FS.write_self (fs : FS) (p : String) (d : FileData) :
    (fs.write p d).files p = some d := by
  simp [FS.write]

theorem FS.write_other (fs : FS) (p q : String) (d : FileData) (h : q ≠ p) :
    (fs.write p d).files q = fs.files q := by
  simp [FS.write, h]

theorem append_gsam_ne (p : String) : p ++ METADATA_EXTENSION ≠ p := by
  intro h
  have h2 := congrArg String.length h
  rw [String.length_append] at h2
  have h3 : METADATA_EXTENSION.length = 5 := rfl
  omega

theorem ok_bind {α β : Type} (a : α) (f : α → Except Err β) :
    (Except.ok a : Except Err α) >>= f = f a := rfl

theorem error_bind {α β : Type} (e : Err) (f : α → Except Err β) :
    (Except.error e : Except Err α) >>= f = Except.error e := rfl

/-! ## Claim theorems -/

/-- **C10.**  `retrieve_metadata` and `refresh_metadata` declare
`t.Union[str, Path]` arguments but call `asset_path.exists()` before any
`Path(...)` conversion, so every string-typed argument — whether or not the
file exists — raises `AttributeError`; the `FileNotFoundError` for a
non-existent asset is reached only by `Path`-typed arguments. -/
theorem retrieve_refresh_str_attr_error (hash : List Nat → String) (u : String)
    (fs : FS) (s : String) (ch : Option PyVal) :
    retrieve_metadata hash u fs (.str s) = .error .attrError ∧
    refresh_metadata hash u fs (.str s) ch = .error .attrError ∧
    (∀ p : String, fs.files p = Option.none →
      retrieve_metadata hash u fs (.path p) = .error .fileNotFound ∧
      refresh_metadata hash u fs (.path p) ch = .error .fileNotFound) := by
  refine ⟨rfl, rfl, fun p hp => ⟨?_, ?_⟩⟩
  · simp [retrieve_metadata, hp]
  · simp [refresh_metadata, retrieve_metadata, hp, error_bind]

/-- Witness for the C10 theorem at a concrete store: `fsA` has `a.svg` but
not `missing.svg`. -/
theorem retrieve_refresh_str_attr_error_witness :
    retrieve_metadata hash0 "u" fsA (.str "a.svg") = .error .attrError ∧
    retrieve_metadata hash0 "u" fsA (.path "missing.svg") = .error .fileNotFound :=
  ⟨(retrieve_refresh_str_attr_error hash0 "u" fsA "a.svg" Option.none).1,
   ((retrieve_refresh_str_attr_error hash0 "u" fsA "a.svg" Option.none).2.2
      "missing.svg" (by decide)).1⟩

/-- **C9, counterexample.**  The claim says a metadata file that exists but
misses required fields fails to load with a `Corrupt` error.  In fact
`deserialize_dataclass` populates missing fields with `None` and the frozen
dataclass accepts them: the well-formed JSON document `{}` loads
successfully into a record whose `uuid`, `checksum`, `exported_files` and
`version` are all `None`. -/
theorem load_metadata_missing_fields_ok :
    load_metadata fsD (.path "b.svg.gsam") = .ok ⟨.none, .none, .none, .none⟩ := by
  decide

/-- **C9, amended.**  `load_metadata` propagates a decode failure when the
file content is not valid JSON text, but performs no field validation: a
well-formed JSON object lacking every required field (the empty object)
loads into a record whose fields are all `None`. -/
theorem load_metadata_amended (fs : FS) (mp : StrOrPath) (bs : List Nat) :
    (fs.files mp.toPath = some (.bytes bs) →
      load_metadata fs mp = .error .jsonDecode) ∧
    (fs.files mp.toPath = some (.json (.dict [])) →
      load_metadata fs mp = .ok ⟨.none, .none, .none, .none⟩) := by
  constructor
  · intro h
    simp [load_metadata, load_json, h, error_bind]
  · intro h
    simp [load_metadata, load_json, h, ok_bind, deserialize_metadata,
      convert_exported_files, List.lookup]

/-- Witness for the C9 amended theorem on the concrete store `fsD`. -/
theorem load_metadata_amended_witness :
    load_metadata fsD (.path "mal.svg.gsam") = .error .jsonDecode ∧
    load_metadata fsD (.path "b.svg.gsam") = .ok ⟨.none, .none, .none, .none⟩ :=
  ⟨(load_metadata_amended fsD (.path "mal.svg.gsam") [123]).1 (by decide),
   (load_metadata_amended fsD (.path "b.svg.gsam") [123]).2 (by decide)⟩

/-- **C1.**  The claim (and the spec) require that a failed per-asset
transform is logged, not propagated, and that the failed asset's metadata is
NOT refreshed, so the next run retries it.  The loop body
(`processor.py` lines 78–87) calls
`refresh_metadata(svg_path, exported_files=[exported_path])`
unconditionally: when the transform fails (`svg_to_sdf` returns `None`),
processing does continue with the next asset, but the failed asset's
metadata IS refreshed, with `exported_files = [None]`.  Concretely, running
the loop on `["a.svg", "b.svg"]` with a transform that fails on `a.svg` and
succeeds on `b.svg`: the run succeeds, `a.svg`'s side-car is written with a
fresh checksum and `[null]`, `b.svg`'s with its output path — and on the
next run `get_asset_status` on `a.svg` raises `TypeError` (from
`Path(None)` while deserializing) instead of reclassifying it as pending. -/
theorem failed_transform_still_refreshes :
    run_result (process_pending_files hash0 uuidFor transform_mixed fsB
        ["a.svg", "b.svg"]) "a.svg.gsam"
      = some (some (.json (.dict [("uuid", .str "uuid-a.svg"),
          ("checksum", .str (hash0 [1])),
          ("exported_files", .list [.none]), ("version", .int 1)]))) ∧
    run_result (process_pending_files hash0 uuidFor transform_mixed fsB
        ["a.svg", "b.svg"]) "b.svg.gsam"
      = some (some (.json (.dict [("uuid", .str "uuid-b.svg"),
          ("checksum", .str (hash0 [2])),
          ("exported_files", .list [.str "T_b.svg.png"]), ("version", .int 1)]))) ∧
    run_status hash0 (process_pending_files hash0 uuidFor transform_mixed fsB
        ["a.svg", "b.svg"]) "a.svg"
      = some (.error .typeError) := by
  refine ⟨by decide, by decide, by decide⟩

/-- **C2.**  `get_asset_status` classifies from the file system alone (it
returns no filesystem: it performs no write, and caches nothing):
`NEW` exactly when no side-car file exists at the derived metadata path;
and when the side-car exists and parses into a record `m` (and the asset's
current bytes are `b`), `MODIFIED` exactly when the stored checksum differs
from the hash of `b`, `UNCHANGED` exactly when they agree. -/
theorem get_asset_status_spec (hash : List Nat → String) (fs : FS) (p : String)
    (b : List Nat) (hasset : fs.files p = some (.bytes b)) :
    (get_asset_status hash fs (.path p) = .ok .NEW ↔
      fs.files (get_metadata_path (.path p)) = Option.none) ∧
    (∀ m, load_metadata fs (.path (get_metadata_path (.path p))) = .ok m →
      ((get_asset_status hash fs (.path p) = .ok .MODIFIED ↔
          m.checksum ≠ .str (hash b)) ∧
       (get_asset_status hash fs (.path p) = .ok .UNCHANGED ↔
          m.checksum = .str (hash b)))) := by
  have hchk : calculate_checksum hash fs (.path p) = .ok (hash b) := by
    simp [calculate_checksum, StrOrPath.toPath, hasset, FileData.toBytes]
  cases hm : fs.files (get_metadata_path (.path p)) with
  | none =>
      constructor
      · simp [get_asset_status, StrOrPath.toPath, hm]
      · intro m hload
        exfalso
        simp [load_metadata, load_json, StrOrPath.toPath, hm, error_bind] at hload
  | some fd =>
      cases hload0 : load_metadata fs (.path (get_metadata_path (.path p))) with
      | error e =>
          constructor
          · simp [get_asset_status, StrOrPath.toPath, hm, hload0, error_bind]
          · intro m hload
            exact absurd hload (by simp)
      | ok m0 =>
          have hstat : get_asset_status hash fs (.path p) =
              (if PyVal.str (hash b) ≠ m0.checksum then .ok .MODIFIED
               else .ok .UNCHANGED) := by
            simp [get_asset_status, StrOrPath.toPath, hm, hload0, hchk, ok_bind]
          constructor
          · rw [hstat]
            by_cases hc : PyVal.str (hash b) = m0.checksum <;> simp [hc]
          · intro m hload
            injection hload with hload
            subst hload
            rw [hstat]
            by_cases hc : PyVal.str (hash b) = m0.checksum
            · simp [hc]
            · constructor
              · simp [hc]
                intro hcs
                exact absurd hcs.symm hc
              · simp [hc]
                intro hcs
                exact absurd hcs.symm hc

theorem retrieve_ok_cases (hash : List Nat → String) (u : String) (fs : FS)
    (p : String) (m0 : AssetMetadata) (fs1 : FS)
    (h : retrieve_metadata hash u fs (.path p) = .ok (m0, fs1)) :
    (fs.files p).isSome = true ∧
    (((fs.files (p ++ METADATA_EXTENSION)).isSome = true ∧
        load_metadata fs (.path (p ++ METADATA_EXTENSION)) = .ok m0 ∧ fs1 = fs) ∨
      (fs.files (p ++ METADATA_EXTENSION) = Option.none ∧
        create_metadata hash u fs (.path p) = .ok m0 ∧
        fs1 = save_metadata fs m0 (.path (p ++ METADATA_EXTENSION)))) := by
  by_cases hA : (fs.files p).isSome = true
  · refine ⟨hA, ?_⟩
    by_cases hM : (fs.files (p ++ METADATA_EXTENSION)).isSome = true
    · left
      cases hload : load_metadata fs (.path (p ++ METADATA_EXTENSION)) with
      | error e =>
          exfalso
          simp [retrieve_metadata, hA, get_metadata_path, StrOrPath.toPath, hM,
            hload, error_bind] at h
      | ok mm =>
          have hm : mm = m0 ∧ fs = fs1 := by
            simpa [retrieve_metadata, hA, get_metadata_path, StrOrPath.toPath, hM,
              hload, ok_bind] using h
          exact ⟨hM, by rw [← hm.1], hm.2.symm⟩
    · right
      have hMn : fs.files (p ++ METADATA_EXTENSION) = Option.none := by
        cases hx : fs.files (p ++ METADATA_EXTENSION) with
        | none => rfl
        | some fd => rw [hx] at hM; simp at hM
      cases hcr : create_metadata hash u fs (.path p) with
      | error e =>
          exfalso
          simp [retrieve_metadata, hA, get_metadata_path, StrOrPath.toPath, hM,
            hcr, error_bind] at h
      | ok mm =>
          have hm : mm = m0 ∧
              save_metadata fs mm (.path (p ++ METADATA_EXTENSION)) = fs1 := by
            simpa [retrieve_metadata, hA, get_metadata_path, StrOrPath.toPath, hM,
              hcr, ok_bind] using h
          exact ⟨hMn, by rw [← hm.1], by rw [← hm.2, hm.1]⟩
  · exfalso
    simp [retrieve_metadata, hA] at h

theorem refresh_ok_spec (hash : List Nat → String) (u : String) (fs : FS)
    (p : String) (ch : Option PyVal) (m' : AssetMetadata) (fs' : FS)
    (h : refresh_metadata hash u fs (.path p) ch = .ok (m', fs')) :
    ∃ m0 fs1,
      retrieve_metadata hash u fs (.path p) = .ok (m0, fs1) ∧
      (∀ q, q ≠ p ++ METADATA_EXTENSION → fs1.files q = fs.files q) ∧
      ∃ c, calculate_checksum hash fs1 (.path p) = .ok c ∧
        m' = ⟨m0.uuid, .str c, ch.getD m0.exported_files, m0.version⟩ ∧
        fs' = save_metadata fs1 m' (.path (p ++ METADATA_EXTENSION)) := by
  cases hr : retrieve_metadata hash u fs (.path p) with
  | error e =>
      exfalso
      simp [refresh_metadata, hr, error_bind] at h
  | ok r =>
      obtain ⟨m0, fs1⟩ := r
      refine ⟨m0, fs1, rfl, ?_, ?_⟩
      · intro q hq
        rcases (retrieve_ok_cases hash u fs p m0 fs1 hr).2 with hc | hc
        · rw [hc.2.2]
        · rw [hc.2.2]
          exact FS.write_other fs (p ++ METADATA_EXTENSION) q _ hq
      · cases hchk : calculate_checksum hash fs1 (.path p) with
        | error e =>
            exfalso
            simp [refresh_metadata, hr, ok_bind, hchk, error_bind] at h
        | ok c =>
            have hm : (⟨m0.uuid, .str c, ch.getD m0.exported_files, m0.version⟩ :
                  AssetMetadata) = m' ∧
                save_metadata fs1
                  ⟨m0.uuid, .str c, ch.getD m0.exported_files, m0.version⟩
                  (.path (get_metadata_path (.path p))) = fs' := by
              simpa [refresh_metadata, hr, ok_bind, hchk] using h
            refine ⟨c, rfl, hm.1.symm, ?_⟩
            rw [← hm.2, ← hm.1]
            rfl

theorem load_after_save (fs : FS) (mp : String) (m : AssetMetadata) (v : PyVal)
    (hef : convert_exported_files (convert_for_serialization m.exported_files) = .ok v) :
    load_metadata (save_metadata fs m (.path mp)) (.path mp) =
      .ok ⟨convert_for_serialization m.uuid, convert_for_serialization m.checksum, v,
           convert_for_serialization m.version⟩ := by
  have hw : (save_metadata fs m (.path mp)).files mp
      = some (.json (serialize_metadata m)) := FS.write_self fs mp _
  simp [load_metadata, load_json, StrOrPath.toPath, hw, ok_bind,
    deserialize_metadata, serialize_metadata, List.lookup, hef]

theorem ef_roundtrips_ok (v : PyVal) (h : ef_roundtrips v = true) :
    ∃ w, convert_exported_files (convert_for_serialization v) = .ok w := by
  unfold ef_roundtrips at h
  cases hc : convert_exported_files (convert_for_serialization v) with
  | error e => rw [hc] at h; simp [Except.toOption] at h
  | ok w => exact ⟨w, rfl⟩

/-- **C4, amended.**  Immediately after a successful `refresh_metadata`,
`get_asset_status` returns `UNCHANGED` while the asset's bytes are
unmodified — **provided** the refreshed record's `exported_files` value
survives the serialize/deserialize round trip (true of every list of
paths/strings, i.e. of what a successful transform produces).  Without that
proviso the claim fails: see the counterexample, where a refresh that stored
`exported_files=[None]` succeeds but the next classification raises
`TypeError` instead of returning `UNCHANGED`. -/
theorem status_unchanged_after_refresh (hash : List Nat → String) (u : String)
    (fs : FS) (p : String) (b : List Nat) (ch : Option PyVal)
    (m' : AssetMetadata) (fs' : FS)
    (hasset : fs.files p = some (.bytes b))
    (h : refresh_metadata hash u fs (.path p) ch = .ok (m', fs'))
    (hef : ef_roundtrips m'.exported_files = true) :
    get_asset_status hash fs' (.path p) = .ok .UNCHANGED := by
  obtain ⟨m0, fs1, hret, hpres, c, hchk, hm', hfs'⟩ :=
    refresh_ok_spec hash u fs p ch m' fs' h
  have hp_ne : p ≠ p ++ METADATA_EXTENSION := (append_gsam_ne p).symm
  have hfs1p : fs1.files p = some (.bytes b) := by
    rw [hpres p hp_ne]; exact hasset
  have hc_val : c = hash b := by
    have : calculate_checksum hash fs1 (.path p) = .ok (hash b) := by
      simp [calculate_checksum, StrOrPath.toPath, hfs1p, FileData.toBytes]
    rw [this] at hchk
    injection hchk with hchk
    exact hchk.symm
  obtain ⟨v, hv⟩ := ef_roundtrips_ok m'.exported_files hef
  have hload : load_metadata fs' (.path (p ++ METADATA_EXTENSION)) =
      .ok ⟨convert_for_serialization m'.uuid, convert_for_serialization m'.checksum,
           v, convert_for_serialization m'.version⟩ := by
    rw [hfs']
    exact load_after_save fs1 (p ++ METADATA_EXTENSION) m' v hv
  have hfile : fs'.files (p ++ METADATA_EXTENSION)
      = some (.json (serialize_metadata m')) := by
    rw [hfs']
    exact FS.write_self fs1 (p ++ METADATA_EXTENSION) _
  have hfsp : fs'.files p = some (.bytes b) := by
    rw [hfs']
    have := FS.write_other fs1 (p ++ METADATA_EXTENSION) p
      (.json (serialize_metadata m')) hp_ne
    rw [show (save_metadata fs1 m' (.path (p ++ METADATA_EXTENSION))) =
        fs1.write (p ++ METADATA_EXTENSION) (.json (serialize_metadata m')) from rfl]
    rw [this]
    exact hfs1p
  have hchk2 : calculate_checksum hash fs' (.path p) = .ok (hash b) := by
    simp [calculate_checksum, StrOrPath.toPath, hfsp, FileData.toBytes]
  have hcks : convert_for_serialization m'.checksum = .str (hash b) := by
    rw [hm', hc_val]
    rfl
  simp [get_asset_status, StrOrPath.toPath, get_metadata_path, hfile, hload,
    hchk2, ok_bind, hcks]

/-- **C4, counterexample.**  The claim states that after **any** successful
refresh (with no byte changes) classification returns `UNCHANGED`, and that a
second loop run finds an empty pending set.  But a refresh that stores
`exported_files=[None]` — exactly what the loop writes after a failed
transform — succeeds, and the subsequent `get_asset_status` raises
`TypeError` (from `Path(None)` during deserialization) rather than returning
`UNCHANGED`, aborting a second run instead of yielding an empty pending
set. -/
theorem refresh_then_status_type_error :
    after_refresh_status hash0 "u0" fsA "a.svg" (some (.list [.none]))
      = some (.error .typeError) := by
  decide

/-- Witness for the C4 amended theorem at a concrete store: a refresh of
`a.svg` on `fsA` that stores `exported_files=[T_a.png]`. -/
theorem status_unchanged_after_refresh_witness :
    after_refresh_status hash0 "u0" fsA "a.svg" (some (.list [.path "T_a.png"]))
      = some (.ok .UNCHANGED) := by
  cases hres : refresh_metadata hash0 "u0" fsA (.path "a.svg")
      (some (.list [.path "T_a.png"])) with
  | error e =>
      exfalso
      have hsome : (refresh_metadata hash0 "u0" fsA (.path "a.svg")
          (some (.list [.path "T_a.png"]))).toOption.isSome = true := by decide
      rw [hres] at hsome
      simp [Except.toOption] at hsome
  | ok r =>
      have hm : r.1.exported_files = .list [.path "T_a.png"] := by
        obtain ⟨m0, fs1, hret, hpres, c, hchk, hm', hfs'⟩ :=
          refresh_ok_spec hash0 "u0" fsA "a.svg" (some (.list [.path "T_a.png"]))
            r.1 r.2 (by rw [hres])
        rw [hm']
        rfl
      have hst := status_unchanged_after_refresh hash0 "u0" fsA "a.svg" [1, 2]
        (some (.list [.path "T_a.png"])) r.1 r.2 (by decide) (by rw [hres])
        (by rw [hm]; decide)
      unfold after_refresh_status
      rw [hres]
      simpa [Except.toOption] using hst

theorem load_uuid_eq (fs : FS) (mp : String) (kvs : List (String × PyVal))
    (m : AssetMetadata) (hfile : fs.files mp = some (.json (.dict kvs)))
    (h : load_metadata fs (.path mp) = .ok m) :
    m.uuid = (kvs.lookup "uuid").getD .none := by
  simp only [load_metadata, load_json, StrOrPath.toPath, hfile, ok_bind,
    deserialize_metadata] at h
  cases hc : convert_exported_files ((kvs.lookup "exported_files").getD .none) with
  | error e => rw [hc] at h; simp [error_bind] at h
  | ok v =>
      rw [hc] at h
      rw [ok_bind] at h
      injection h with h
      rw [← h]

theorem stored_uuid_save (fs : FS) (m : AssetMetadata) (p : String) :
    stored_uuid (save_metadata fs m (.path (p ++ METADATA_EXTENSION))) p
      = some (convert_for_serialization m.uuid) := by
  have hw : (save_metadata fs m (.path (p ++ METADATA_EXTENSION))).files
      (p ++ METADATA_EXTENSION) = some (.json (serialize_metadata m)) :=
    FS.write_self fs (p ++ METADATA_EXTENSION) _
  simp [stored_uuid, hw, serialize_metadata, List.lookup]

theorem refresh_uuid_invariant (hash : List Nat → String) (uN : String) (fs : FS)
    (p : String) (ch : Option PyVal) (m' : AssetMetadata) (fs' : FS) (u : String)
    (hst : stored_uuid fs p = some (.str u))
    (h : refresh_metadata hash uN fs (.path p) ch = .ok (m', fs')) :
    m'.uuid = .str u ∧ stored_uuid fs' p = some (.str u) := by
  obtain ⟨m0, fs1, hret, hpres, c, hchk, hm', hfs'⟩ :=
    refresh_ok_spec hash uN fs p ch m' fs' h
  obtain ⟨kvs, hfile, hlk⟩ :
      ∃ kvs, fs.files (p ++ METADATA_EXTENSION) = some (.json (.dict kvs)) ∧
        kvs.lookup "uuid" = some (.str u) := by
    unfold stored_uuid at hst
    cases hx : fs.files (p ++ METADATA_EXTENSION) with
    | none => rw [hx] at hst; simp at hst
    | some fd =>
        cases fd with
        | bytes bs => rw [hx] at hst; simp at hst
        | json j =>
            cases j with
            | dict kvs => exact ⟨kvs, rfl, by rw [hx] at hst; exact hst⟩
            | none => rw [hx] at hst; simp at hst
            | str s => rw [hx] at hst; simp at hst
            | int n => rw [hx] at hst; simp at hst
            | path s => rw [hx] at hst; simp at hst
            | list l => rw [hx] at hst; simp at hst
  have hm0uuid : m0.uuid = .str u := by
    rcases (retrieve_ok_cases hash uN fs p m0 fs1 hret).2 with hc2 | hc2
    · have := load_uuid_eq fs (p ++ METADATA_EXTENSION) kvs m0 hfile hc2.2.1
      rw [this, hlk]
      rfl
    · rw [hc2.1] at hfile
      exact absurd hfile (by simp)
  have huuid : m'.uuid = .str u := by
    rw [hm']
    exact hm0uuid
  refine ⟨huuid, ?_⟩
  rw [hfs', stored_uuid_save fs1 m' p, huuid]
  rfl

theorem refresh_seq_uuid (hash : List Nat → String) (p : String) (u : String) :
    ∀ (args : List (String × Option PyVal)) (fs : FS),
      stored_uuid fs p = some (.str u) →
      ∀ fs2, refresh_seq hash args fs (.path p) = .ok fs2 →
        stored_uuid fs2 p = some (.str u) := by
  intro args
  induction args with
  | nil =>
      intro fs hst fs2 h
      simp only [refresh_seq] at h
      injection h with h
      rw [← h]
      exact hst
  | cons a rest ih =>
      intro fs hst fs2 h
      obtain ⟨uN, ch⟩ := a
      simp only [refresh_seq] at h
      cases hr : refresh_metadata hash uN fs (.path p) ch with
      | error e => rw [hr] at h; rw [error_bind] at h; exact absurd h (by simp)
      | ok r =>
          rw [hr] at h
          rw [ok_bind] at h
          obtain ⟨m1, fsm⟩ := r
          exact ih fsm (refresh_uuid_invariant hash uN fs p ch m1 fsm u hst hr).2 fs2 h

/-- **C5.**  `refresh_metadata` derives the new record by `dc.replace`,
overriding only `exported_files` and the freshly recomputed `checksum`: the
retrieved record's `uuid` and `version` are carried over unchanged.
Consequently, when the on-disk record's `uuid` is the string `u`, the record
returned by a refresh still has `uuid = u`, the saved file still stores
`uuid = u`, and any sequence of successive refresh calls (each with its own
fresh-uuid supply and overrides) leaves the stored `uuid` equal to `u`. -/
theorem refresh_never_changes_uuid (hash : List Nat → String) (fs : FS)
    (p : String) (u : String) (hst : stored_uuid fs p = some (.str u)) :
    (∀ uN ch m' fs', refresh_metadata hash uN fs (.path p) ch = .ok (m', fs') →
      (∃ m0 fs1 c, retrieve_metadata hash uN fs (.path p) = .ok (m0, fs1) ∧
        calculate_checksum hash fs1 (.path p) = .ok c ∧
        m' = ⟨m0.uuid, .str c, ch.getD m0.exported_files, m0.version⟩) ∧
      m'.uuid = .str u ∧ stored_uuid fs' p = some (.str u)) ∧
    (∀ args fs2, refresh_seq hash args fs (.path p) = .ok fs2 →
      stored_uuid fs2 p = some (.str u)) := by
  constructor
  · intro uN ch m' fs' h
    obtain ⟨m0, fs1, hret, hpres, c, hchk, hm', hfs'⟩ :=
      refresh_ok_spec hash uN fs p ch m' fs' h
    exact ⟨⟨m0, fs1, c, hret, hchk, hm'⟩,
      refresh_uuid_invariant hash uN fs p ch m' fs' u hst h⟩
  · intro args fs2 h
    exact refresh_seq_uuid hash p u args fs hst fs2 h

/-- Witness for the C5 theorem: `fsC` stores `uuid = "u1"` for `c.svg`; one
further refresh keeps it. -/
theorem refresh_never_changes_uuid_witness :
    stored_uuid fsC "c.svg" = some (.str "u1") ∧
    (∀ fs2, refresh_seq hash0 [("u9", some (.list []))] fsC (.path "c.svg") = .ok fs2 →
      stored_uuid fs2 "c.svg" = some (.str "u1")) :=
  ⟨by decide,
   fun fs2 h =>
     (refresh_never_changes_uuid hash0 fsC "c.svg" "u1" (by decide)).2
       [("u9", some (.list []))] fs2 h⟩

theorem foldl_min_all_eq (v : ℕ) : ∀ xs : List ℕ, (∀ x ∈ xs, x = v) →
    xs.foldl min v = v := by
  intro xs
  induction xs with
  | nil => intro _; rfl
  | cons x rest ih =>
      intro h
      have hx : x = v := h x (by simp)
      simp only [List.foldl_cons, hx, min_self]
      exact ih (fun y hy => h y (by simp [hy]))

theorem foldl_max_all_eq (v : ℕ) : ∀ xs : List ℕ, (∀ x ∈ xs, x = v) →
    xs.foldl max v = v := by
  intro xs
  induction xs with
  | nil => intro _; rfl
  | cons x rest ih =>
      intro h
      have hx : x = v := h x (by simp)
      simp only [List.foldl_cons, hx, max_self]
      exact ih (fun y hy => h y (by simp [hy]))

theorem reduceMinMax_all_eq (l : List ℕ) (v : ℕ) (hne : l ≠ [])
    (h : ∀ x ∈ l, x = v) : reduceMin l = some v ∧ reduceMax l = some v := by
  cases l with
  | nil => exact absurd rfl hne
  | cons x xs =>
      have hx : x = v := h x (by simp)
      have hxs : ∀ y ∈ xs, y = v := fun y hy => h y (by simp [hy])
      constructor
      · simp only [reduceMin, hx, foldl_min_all_eq v xs hxs]
      · simp only [reduceMax, hx, foldl_max_all_eq v xs hxs]

theorem channel_samples_all (img : A3N) (k : ℕ) (v : ℕ)
    (h : ∀ r, r < img.H → ∀ c, c < img.W → img.d r c k = v) :
    ∀ x ∈ channel_samples img k, x = v := by
  intro x hx
  simp only [channel_samples, List.mem_flatten, List.mem_map, List.mem_range] at hx
  obtain ⟨row, ⟨r, hr, hrow⟩, hxrow⟩ := hx
  rw [← hrow] at hxrow
  simp only [List.mem_map, List.mem_range] at hxrow
  obtain ⟨c, hc, hxc⟩ := hxrow
  rw [← hxc]
  exact h r hr c hc

theorem channel_samples_ne_nil (img : A3N) (k : ℕ) (hH : 0 < img.H)
    (hW : 0 < img.W) : channel_samples img k ≠ [] := by
  apply List.ne_nil_of_mem (a := img.d 0 0 k)
  simp only [channel_samples, List.mem_flatten, List.mem_map, List.mem_range]
  exact ⟨(List.range img.W).map (fun c => img.d 0 c k), ⟨0, hH, rfl⟩,
    by simp only [List.mem_map, List.mem_range]; exact ⟨0, hW, rfl⟩⟩

theorem content_sdfs_all_false (sqrtFn : ℕ → ℚ) (img : A3N) (mrd : ℚ)
    (f thr : ℕ) : ∀ (l : List Bool) (idx : ℕ), (∀ b ∈ l, b = false) →
      content_sdfs sqrtFn img mrd f thr l idx = .ok [] := by
  intro l
  induction l with
  | nil => intro idx _; rfl
  | cons b rest ih =>
      intro idx h
      have hb : b = false := h b (by simp)
      simp only [content_sdfs, hb, Bool.false_eq_true, if_false]
      exact ih (idx + 1) (fun y hy => h y (by simp [hy]))

/-- **C6, amended.**  On a 4-channel (indeed any-channel) input in which
every channel is uniform, `compute_multichannel_sdf` does **not** return a
distinguished "no signal" failure: it logs a warning and returns an ordinary
zero-filled `(H/f, W/f)` grayscale array, indistinguishable by type or value
from a successful result. -/
theorem compute_multichannel_uniform (sqrtFn : ℕ → ℚ) (img : A3N) (mrd : ℚ)
    (f thr : ℕ) (hH : 0 < img.H) (hW : 0 < img.W)
    (huni : ∀ k, k < img.C → ∀ r, r < img.H → ∀ c, c < img.W →
      img.d r c k = img.d 0 0 k) :
    compute_multichannel_sdf sqrtFn img mrd f thr =
      .ok (.gray ⟨img.H / f, img.W / f, fun _ _ => 0⟩) := by
  have hprod : ¬(img.C ≠ 0 ∧ img.H * img.W = 0) := by
    intro hcon
    have := Nat.mul_pos hH hW
    omega
  have hana : analyze_image_channels img = .ok ((List.range img.C).map (fun k =>
      !(reduceMin (channel_samples img k) == reduceMax (channel_samples img k)))) := by
    simp only [analyze_image_channels, if_neg hprod]
  have hfalse : ∀ b ∈ (List.range img.C).map (fun k =>
      !(reduceMin (channel_samples img k) == reduceMax (channel_samples img k))),
      b = false := by
    intro b hb
    simp only [List.mem_map, List.mem_range] at hb
    obtain ⟨k, hk, hbk⟩ := hb
    have hall : ∀ x ∈ channel_samples img k, x = img.d 0 0 k :=
      channel_samples_all img k _ (huni k hk)
    have hmm := reduceMinMax_all_eq (channel_samples img k) (img.d 0 0 k)
      (channel_samples_ne_nil img k hH hW) hall
    rw [← hbk, hmm.1, hmm.2]
    simp
  have hsdfs := content_sdfs_all_false sqrtFn img mrd f thr _ 0 hfalse
  simp [compute_multichannel_sdf, hana, ok_bind, hsdfs]

/-- **C6, counterexample.**  The claim says an all-uniform 4-channel input
yields a "no signal" result that the caller must treat as failure, and in
particular not a zero-filled image returned as an ordinary success value.
On the all-uniform image `imgU` the function returns exactly that: the
ordinary success value `ok` of a zero-filled 2×2 grayscale array (no `None`,
no exception — the caller cannot distinguish it from a real SDF). -/
theorem compute_multichannel_uniform_returns_zeros :
    compute_multichannel_sdf natSqrtQ imgU (1/10) 1 127
      = .ok (.gray ⟨2, 2, fun _ _ => 0⟩) := rfl

/-- Witness for the C6 amended theorem at the concrete image `imgU` with
downsample factor 2. -/
theorem compute_multichannel_uniform_witness :
    compute_multichannel_sdf natSqrtQ imgU (2/5) 2 127
      = .ok (.gray ⟨imgU.H / 2, imgU.W / 2, fun _ _ => 0⟩) :=
  compute_multichannel_uniform natSqrtQ imgU (2/5) 2 127 (by decide) (by decide)
    (by decide)

/-- **C8.**  The claim (and the spec) say `compute_sdf` must not crash on
dimensions that are not evenly divisible by `downsample_factor`, truncating
the remainder instead.  The code slices `sdf[:height, :width]` — the full
dimensions, trimming nothing — so the subsequent
`reshape(new_height, f, new_width, f)` demands
`H*W = (H/f)*f*((W/f)*f)` and raises `ValueError` for **every** positive
non-divisible input; concretely, a 5×5 grid with the default factor 4 raises
instead of returning a 1×1 result. -/
theorem compute_sdf_nondivisible_raises :
    (∀ (sqrtFn : ℕ → ℚ) (g : A2N) (mrd : ℚ) (f thr : ℕ),
      0 < f → 0 < g.H → 0 < g.W → ¬(f ∣ g.H ∧ f ∣ g.W) →
      compute_sdf sqrtFn g mrd f thr = .error .valueError) ∧
    compute_sdf natSqrtQ g5 (1/10) 4 127 = .error .valueError := by
  constructor
  · intro sqrtFn g mrd f thr hf hH hW hnd
    have haH : g.H / f * f ≤ g.H := Nat.div_mul_le_self g.H f
    have haW : g.W / f * f ≤ g.W := Nat.div_mul_le_self g.W f
    have hne : ¬(g.H * g.W = g.H / f * f * (g.W / f * f)) := by
      have hmodH : g.H / f * f + g.H % f = g.H := by
        rw [Nat.mul_comm (g.H / f) f]
        exact Nat.div_add_mod g.H f
      have hmodW : g.W / f * f + g.W % f = g.W := by
        rw [Nat.mul_comm (g.W / f) f]
        exact Nat.div_add_mod g.W f
      rcases Decidable.not_and_iff_or_not.mp hnd with hnH | hnW
      · have hmH : g.H % f ≠ 0 := fun hz => hnH (Nat.dvd_of_mod_eq_zero hz)
        have hlt : g.H / f * f < g.H := by omega
        have : g.H / f * f * (g.W / f * f) < g.H * g.W :=
          lt_of_le_of_lt (Nat.mul_le_mul_left _ haW)
            ((Nat.mul_lt_mul_right hW).mpr hlt)
        omega
      · have hmW : g.W % f ≠ 0 := fun hz => hnW (Nat.dvd_of_mod_eq_zero hz)
        have hlt : g.W / f * f < g.W := by omega
        have : g.H / f * f * (g.W / f * f) < g.H * g.W :=
          lt_of_le_of_lt (Nat.mul_le_mul_right _ haH)
            ((Nat.mul_lt_mul_left hH).mpr hlt)
        omega
    simp only [compute_sdf, binarize]
    rw [if_neg hne]
  · rfl

/-- Witness for the C8 theorem's universally quantified part at the concrete
5×5 grid and factor 4. -/
theorem compute_sdf_nondivisible_raises_witness :
    compute_sdf natSqrtQ g5 (2/5) 4 127 = .error .valueError :=
  compute_sdf_nondivisible_raises.1 natSqrtQ g5 (2/5) 4 127 (by decide) (by decide)
    (by decide) (by decide)

theorem zeroCells_congr (m1 m2 : A2N) (hH : m1.H = m2.H) (hW : m1.W = m2.W)
    (hd : ∀ r, r < m1.H → ∀ c, c < m1.W → m1.d r c = m2.d r c) :
    zeroCells m1 = zeroCells m2 := by
  unfold zeroCells
  rw [← hH, ← hW]
  apply congrArg List.flatten
  apply List.map_congr_left
  intro r hr
  rw [List.mem_range] at hr
  apply List.filterMap_congr
  intro c hc
  rw [List.mem_range] at hc
  rw [hd r hr c hc]

theorem edt_congr (sqrtFn : ℕ → ℚ) (m1 m2 : A2N) (hH : m1.H = m2.H)
    (hW : m1.W = m2.W)
    (hd : ∀ r, r < m1.H → ∀ c, c < m1.W → m1.d r c = m2.d r c) :
    edt sqrtFn m1 = edt sqrtFn m2 := by
  have hz : zeroCells m1 = zeroCells m2 := zeroCells_congr m1 m2 hH hW hd
  unfold edt
  rw [← hH, ← hW]
  simp only [A2Q.mk.injEq, true_and]
  funext r c
  by_cases hin : r < m1.H ∧ c < m1.W
  · rw [if_pos hin, if_pos hin, hd r hin.1 c hin.2]
    unfold minSqToZero
    rw [hz]
  · rw [if_neg hin, if_neg hin]

theorem index_div_mod (W q r : ℕ) (hr : r < W) :
    (q * W + r) / W = q ∧ (q * W + r) % W = r := by
  have hW0 : 0 < W := lt_of_le_of_lt (Nat.zero_le _) hr
  constructor
  · rw [Nat.add_comm, Nat.add_mul_div_right _ _ hW0, Nat.div_eq_of_lt hr, Nat.zero_add]
  · rw [Nat.add_comm, Nat.add_mul_mod_self_right, Nat.mod_eq_of_lt hr]

/-- **C3.**  For dimensions evenly divisible by the downsample factor,
`compute_sdf` equals the reference pipeline assembled from the spec's own
step list (`spec_distance_field`): binarize at the threshold, dual exact
Euclidean distance transform, signed combine clipped to
`±max_relative_distance × max(H, W)`, non-overlapping block mean, linear
remap to `[0, 255]` quantized to 8 bits — and the output has shape
`(H/f, W/f)`. -/
theorem compute_sdf_matches_spec (sqrtFn : ℕ → ℚ) (g : A2N) (mrd : ℚ)
    (f thr : ℕ) (hdH : f ∣ g.H) (hdW : f ∣ g.W) :
    compute_sdf sqrtFn g mrd f thr = .ok (spec_distance_field sqrtFn g mrd f thr) := by
  have hHf : g.H / f * f = g.H := Nat.div_mul_cancel hdH
  have hWf : g.W / f * f = g.W := Nat.div_mul_cancel hdW
  have hguard : g.H * g.W = g.H / f * f * (g.W / f * f) := by rw [hHf, hWf]
  have hext : edt sqrtFn
      (⟨g.H, g.W, fun r c =>
        if r < g.H ∧ c < g.W then
          255 - if r < g.H ∧ c < g.W then if thr ≤ g.d r c then 255 else 0 else 0
        else 0⟩ : A2N) =
      edt sqrtFn
      (⟨g.H, g.W, fun r c =>
        if r < g.H ∧ c < g.W then if thr ≤ g.d r c then 0 else 255
        else 0⟩ : A2N) := by
    apply edt_congr
    · rfl
    · rfl
    · intro r hr c hc
      have hin : r < g.H ∧ c < g.W := ⟨hr, hc⟩
      simp only [if_pos hin]
      by_cases hthr : thr ≤ g.d r c
      · simp [hthr]
      · simp [hthr]
  unfold compute_sdf spec_distance_field
  simp only [binarize, invert255]
  rw [hext, if_pos hguard]
  refine congrArg Except.ok (congrArg (A2N.mk (g.H / f) (g.W / f)) ?_)
  funext i j
  by_cases hij : i < g.H / f ∧ j < g.W / f
  · rw [if_pos hij, if_pos hij, if_pos hij]
    refine congrArg toU8 ?_
    rw [hWf]
    have hS : (List.map (fun a => (List.map (fun b =>
        if ((i * f + a) * g.W + (j * f + b)) / g.W < g.H ∧
            ((i * f + a) * g.W + (j * f + b)) % g.W < g.W then
          clip (-(mrd * ((max g.H g.W : ℕ) : ℚ))) (mrd * ((max g.H g.W : ℕ) : ℚ))
            ((edt sqrtFn (⟨g.H, g.W, fun r c =>
                if r < g.H ∧ c < g.W then if thr ≤ g.d r c then 255 else 0
                else 0⟩ : A2N)).d
              (((i * f + a) * g.W + (j * f + b)) / g.W)
              (((i * f + a) * g.W + (j * f + b)) % g.W) -
             (edt sqrtFn (⟨g.H, g.W, fun r c =>
                if r < g.H ∧ c < g.W then if thr ≤ g.d r c then 0 else 255
                else 0⟩ : A2N)).d
              (((i * f + a) * g.W + (j * f + b)) / g.W)
              (((i * f + a) * g.W + (j * f + b)) % g.W))
        else 0) (List.range f)).sum) (List.range f)).sum
      = (List.map (fun a => (List.map (fun b =>
        if i * f + a < g.H ∧ j * f + b < g.W then
          clip (-(mrd * ((max g.H g.W : ℕ) : ℚ))) (mrd * ((max g.H g.W : ℕ) : ℚ))
            ((edt sqrtFn (⟨g.H, g.W, fun r c =>
                if r < g.H ∧ c < g.W then if thr ≤ g.d r c then 255 else 0
                else 0⟩ : A2N)).d (i * f + a) (j * f + b) -
             (edt sqrtFn (⟨g.H, g.W, fun r c =>
                if r < g.H ∧ c < g.W then if thr ≤ g.d r c then 0 else 255
                else 0⟩ : A2N)).d (i * f + a) (j * f + b))
        else 0) (List.range f)).sum) (List.range f)).sum := by
      refine congrArg List.sum ?_
      apply List.map_congr_left
      intro a ha
      refine congrArg List.sum ?_
      apply List.map_congr_left
      intro b hb
      rw [List.mem_range] at hb
      have hjb : j * f + b < g.W := by
        have h1 : (j + 1) * f ≤ g.W / f * f :=
          Nat.mul_le_mul_right f (Nat.succ_le_of_lt hij.2)
        rw [hWf] at h1
        have h2 : (j + 1) * f = j * f + f := by ring
        omega
      have hdm := index_div_mod g.W (i * f + a) (j * f + b) hjb
      rw [hdm.1, hdm.2]
    rw [hS]
  · rw [if_neg hij, if_neg hij]

/-- Witness for the C3 theorem at a concrete 4×4 grid with downsample
factor 2. -/
theorem compute_sdf_matches_spec_witness :
    compute_sdf natSqrtQ g4 (1/10) 2 127
      = .ok (spec_distance_field natSqrtQ g4 (1/10) 2 127) :=
  compute_sdf_matches_spec natSqrtQ g4 (1/10) 2 127 (by decide) (by decide)

theorem except_some_exists {α : Type} (e : Except Err α)
    (h : e.toOption.isSome = true) : ∃ a, e = .ok a := by
  cases e with
  | ok a => exact ⟨a, rfl⟩
  | error x => simp [Except.toOption] at h

theorem compute_sdf_isOk (sqrtFn : ℕ → ℚ) (ch : A2N) (mrd : ℚ) (f thr : ℕ)
    (hdH : f ∣ ch.H) (hdW : f ∣ ch.W) :
    ∃ a, compute_sdf sqrtFn ch mrd f thr = .ok a := by
  have hguard : ch.H * ch.W = ch.H / f * f * (ch.W / f * f) := by
    rw [Nat.div_mul_cancel hdH, Nat.div_mul_cancel hdW]
  apply except_some_exists
  unfold compute_sdf
  simp only [binarize]
  rw [if_pos hguard]
  simp [Except.toOption]

theorem content_sdfs_ok (sqrtFn : ℕ → ℚ) (img : A3N) (mrd : ℚ) (f thr : ℕ) :
    ∀ (l : List Bool) (idx : ℕ),
      (∀ k ∈ contentIdxs l idx, ∃ a,
        compute_sdf sqrtFn (channelOf img k) mrd f thr = .ok a) →
      content_sdfs sqrtFn img mrd f thr l idx =
        .ok ((contentIdxs l idx).map (fun k =>
          exOk a2n0 (compute_sdf sqrtFn (channelOf img k) mrd f thr))) := by
  intro l
  induction l with
  | nil => intro idx _; rfl
  | cons b rest ih =>
      intro idx hok
      cases b with
      | false =>
          have h1 : contentIdxs (false :: rest) idx = contentIdxs rest (idx + 1) := by
            simp [contentIdxs]
          rw [h1] at hok
          simp only [content_sdfs, Bool.false_eq_true, if_false, h1]
          exact ih (idx + 1) hok
      | true =>
          have h1 : contentIdxs (true :: rest) idx = idx :: contentIdxs rest (idx + 1) := by
            simp [contentIdxs]
          rw [h1] at hok
          obtain ⟨a, ha⟩ := hok idx (by simp)
          have htail := ih (idx + 1) (fun k hk => hok k (by simp [hk]))
          simp only [content_sdfs, if_true, h1, List.map_cons, ha, ok_bind, htail, exOk]

/-- **C7, amended.**  With two or more content-bearing channels (and
divisible dimensions), `compute_multichannel_sdf` computes each
content-bearing channel's SDF independently — identical to `compute_sdf` on
that channel alone — and packs them at **consecutive** output channel
indices in source-channel order (the `idx`-th computed SDF at output
channel `idx`); the function has no `channel_mapping` parameter.  Channels
beyond the content count stay zero, and the output has
`max(#content-channels, 3)` channels of shape `(H/f, W/f)`. -/
theorem compute_multichannel_amended (sqrtFn : ℕ → ℚ) (img : A3N) (mrd : ℚ)
    (f thr : ℕ) (bs : List Bool)
    (hana : analyze_image_channels img = .ok bs)
    (h2 : 2 ≤ (contentIdxs bs 0).length)
    (hdH : f ∣ img.H) (hdW : f ∣ img.W) :
    ∃ out, compute_multichannel_sdf sqrtFn img mrd f thr = .ok (.multi out) ∧
      out.H = img.H / f ∧ out.W = img.W / f ∧
      out.C = max (contentIdxs bs 0).length 3 ∧
      (∀ i r c a, r < img.H / f → c < img.W / f →
        i < (contentIdxs bs 0).length →
        compute_sdf sqrtFn (channelOf img ((contentIdxs bs 0).getD i 0)) mrd f thr
          = .ok a →
        out.d r c i = a.d r c) ∧
      (∀ i r c, r < img.H / f → c < img.W / f →
        (contentIdxs bs 0).length ≤ i → i < out.C → out.d r c i = 0) := by
  have hok : ∀ k ∈ contentIdxs bs 0, ∃ a,
      compute_sdf sqrtFn (channelOf img k) mrd f thr = .ok a :=
    fun k _ => compute_sdf_isOk sqrtFn (channelOf img k) mrd f thr hdH hdW
  have hcs := content_sdfs_ok sqrtFn img mrd f thr bs 0 hok
  obtain ⟨k1, L1, hL1⟩ : ∃ k1 L1, contentIdxs bs 0 = k1 :: L1 := by
    cases hLc : contentIdxs bs 0 with
    | nil => rw [hLc] at h2; simp at h2
    | cons x xs => exact ⟨x, xs, rfl⟩
  obtain ⟨k2, L2, hL2⟩ : ∃ k2 L2, L1 = k2 :: L2 := by
    cases hLc : L1 with
    | nil => rw [hL1, hLc] at h2; simp at h2
    | cons x xs => exact ⟨x, xs, rfl⟩
  have hml : (contentIdxs bs 0).map (fun k =>
        exOk a2n0 (compute_sdf sqrtFn (channelOf img k) mrd f thr)) =
      exOk a2n0 (compute_sdf sqrtFn (channelOf img k1) mrd f thr) ::
      exOk a2n0 (compute_sdf sqrtFn (channelOf img k2) mrd f thr) ::
      L2.map (fun k => exOk a2n0 (compute_sdf sqrtFn (channelOf img k) mrd f thr)) := by
    rw [hL1, hL2]
    simp
  have hlen : ((contentIdxs bs 0).map (fun k =>
      exOk a2n0 (compute_sdf sqrtFn (channelOf img k) mrd f thr))).length
      = (contentIdxs bs 0).length := List.length_map _ _
  refine ⟨⟨img.H / f, img.W / f,
      max ((contentIdxs bs 0).map (fun k =>
        exOk a2n0 (compute_sdf sqrtFn (channelOf img k) mrd f thr))).length 3,
      fun r c i =>
        if r < img.H / f ∧ c < img.W / f ∧
            i < max ((contentIdxs bs 0).map (fun k =>
              exOk a2n0 (compute_sdf sqrtFn (channelOf img k) mrd f thr))).length 3 then
          ((((contentIdxs bs 0).map (fun k =>
            exOk a2n0 (compute_sdf sqrtFn (channelOf img k) mrd f thr)))[i]?).map
              (fun s => s.d r c)).getD 0
        else 0⟩, ?_, rfl, rfl, by rw [hlen], ?_, ?_⟩
  · simp only [compute_multichannel_sdf, hana, ok_bind, hcs]
    rw [hml]
  · intro i r c a hr hc hi ha
    simp only []
    rw [if_pos ⟨hr, hc, by rw [hlen]; exact lt_of_lt_of_le hi (le_max_left _ _)⟩]
    rw [List.getElem?_map]
    rw [List.getElem?_eq_getElem hi]
    have hgd : (contentIdxs bs 0).getD i 0 = (contentIdxs bs 0)[i] :=
      List.getD_eq_getElem _ _ hi
    rw [hgd] at ha
    simp [ha, exOk]
  · intro i r c hr hc hge hlt
    simp only []
    rw [if_pos ⟨hr, hc, by rw [hlen]; rw [hlen] at hlt; exact hlt⟩]
    rw [List.getElem?_eq_none (by rw [List.length_map]; exact hge)]
    rfl

set_option maxHeartbeats 4000000 in
/-- **C7, counterexample.**  The claim says each content-bearing channel's
SDF lands at output index `channel_mapping[source_channel_index]` (the
caller passes the identity table `SDF_CHANNEL_MAPPING = (0, 1, 2, 3)`).  On
`img1` the content-bearing channels are 0 and 2, so the claim — embodied by
the spec-modelled `spec_multichannel_pack` — puts channel 2's SDF at output
index 2 and leaves index 1 zero.  The code packs sequentially: channel 2's
SDF (value 255 at pixel `(0,1)`) lands at output index 1 and index 2 stays
zero. -/
theorem multichannel_pack_position_counterexample :
    outAt (compute_multichannel_sdf natSqrtQ img1 (1/10) 1 127) 0 1 1 = some 255 ∧
    outAt (spec_multichannel_pack natSqrtQ img1 (1/10) 1 127 [0, 1, 2, 3]) 0 1 1
      = some 0 ∧
    outAt (compute_multichannel_sdf natSqrtQ img1 (1/10) 1 127) 0 1 2 = some 0 ∧
    outAt (spec_multichannel_pack natSqrtQ img1 (1/10) 1 127 [0, 1, 2, 3]) 0 1 2
      = some 255 := by
  refine ⟨?_, by rfl, by rfl, ?_⟩
  · norm_num +decide [outAt, compute_multichannel_sdf, analyze_image_channels,
      content_sdfs, channel_samples, compute_sdf, channelOf, binarize, invert255,
      edt, minSqToZero, zeroCells, sqDistN, reduceMin, reduceMax, clip, qmin, qmax,
      toU8, natSqrtQ, img1, List.range_succ, List.filterMap_cons, List.foldl,
      Nat.sqrt_one, Rat.floor_def', Rat.num_ofNat, Rat.den_ofNat, Except.bind,
      Bind.bind, Pure.pure, Except.pure]
  · norm_num +decide [outAt, spec_multichannel_pack, analyze_image_channels,
      contentIdxs, channel_samples, compute_sdf, channelOf, binarize, invert255,
      edt, minSqToZero, zeroCells, sqDistN, reduceMin, reduceMax, clip, qmin, qmax,
      toU8, natSqrtQ, img1, List.range_succ, List.filterMap_cons, List.foldl,
      Nat.sqrt_one, Rat.floor_def', Rat.num_ofNat, Rat.den_ofNat, Except.bind,
      Bind.bind, Pure.pure, Except.pure, List.mapM, List.mapM.loop, List.find?,
      List.zip, List.zipWith, List.getD, List.getElem?_cons]

/-- Witness for the C7 amended theorem at `img1` (content channels 0 and 2,
factor 1). -/
theorem compute_multichannel_amended_witness :
    ∃ out, compute_multichannel_sdf natSqrtQ img1 (1/10) 1 127 = .ok (.multi out) ∧
      out.H = img1.H / 1 ∧ out.W = img1.W / 1 ∧
      out.C = max (contentIdxs [true, false, true, false] 0).length 3 ∧
      (∀ i r c a, r < img1.H / 1 → c < img1.W / 1 →
        i < (contentIdxs [true, false, true, false] 0).length →
        compute_sdf natSqrtQ
          (channelOf img1 ((contentIdxs [true, false, true, false] 0).getD i 0))
          (1/10) 1 127 = .ok a →
        out.d r c i = a.d r c) ∧
      (∀ i r c, r < img1.H / 1 → c < img1.W / 1 →
        (contentIdxs [true, false, true, false] 0).length ≤ i → i < out.C →
        out.d r c i = 0) :=
  compute_multichannel_amended natSqrtQ img1 (1/10) 1 127
    [true, false, true, false] (by decide) (by decide) (by decide) (by decide)

/-- Witness for the C2 theorem: on `fsC` the record exists, parses, and its
checksum matches, so the status is `UNCHANGED` and not `NEW`. -/
theorem get_asset_status_spec_witness :
    get_asset_status hash0 fsC (.path "c.svg") = .ok .UNCHANGED ∧
    ¬(get_asset_status hash0 fsC (.path "c.svg") = .ok .NEW) := by
  have h := get_asset_status_spec hash0 fsC "c.svg" [5] (by decide)
  have hload : load_metadata fsC (.path (get_metadata_path (.path "c.svg"))) =
      .ok ⟨.str "u1", .str (hash0 [5]), .list [], .int 1⟩ := by decide
  refine ⟨((h.2 _ hload).2).mpr (by decide), ?_⟩
  intro hnew
  have := h.1.mp hnew
  simp [get_metadata_path, StrOrPath.toPath, fsC, METADATA_EXTENSION] at this

end AssetPipeline
